import Mathlib

/-!
Verification of the freestor metadata pipeline (freestor.py).

The Python source is shallowly embedded: Python dictionaries whose values are
strings, lists, or None become association lists over an explicit `Value`
type, Python run-time exceptions become an explicit `PyErr` in `Except`,
and each function of the source is translated definition by definition:

* `parse_article_xml`  — the bibliographic XML parser,
* `make_ia_metadata`   — the metadata synthesizer,
* `modify_ia_metadata` — the metadata reconciler,
* `main_loop`          — the submission loop of the orchestrator.
-/

deriving instance DecidableEq for Except

namespace Freestor

/-- Python run-time exception kinds raised by the embedded code. -/
inductive PyErr where
  | attributeError
  | keyError
  | typeError
  | nameError
  | valueError
deriving DecidableEq, Repr

/-- One element of a Python list value as produced by `parse_article_xml`:
either a plain string (a child element's trimmed text) or a single-key
dictionary mapping a grandchild tag to its trimmed text. -/
inductive Entry where
  | estr (s : String)
  | epair (k : String) (v : String)
deriving DecidableEq, Repr

/-- A Python dictionary value in this program: None, a string, or a list of
entries. -/
inductive Value where
  | vnone
  | vstr (s : String)
  | vlist (l : List Entry)
deriving DecidableEq, Repr

/-- A Python dict with string keys, represented as an association list with
at most one occurrence of each key (all dict constructions below preserve
this). -/
abbrev Md := List (String × Value)

/-- Python `d.get(k)`: `none` when the key is absent. -/
def pyget (m : Md) (k : String) : Option Value :=
  (m.find? (fun p => p.1 == k)).map (fun p => p.2)

/-- Python `d.get(k)` used in a value position (absent key becomes None). -/
def getv (m : Md) (k : String) : Value :=
  (pyget m k).getD .vnone

/-- Python `d[k] = v` on a dict: update in place if the key exists, else
append. -/
def setk (m : Md) (k : String) (v : Value) : Md :=
  if m.any (fun p => p.1 == k) then
    m.map (fun p => if p.1 == k then (k, v) else p)
  else
    m ++ [(k, v)]

/-- Python truthiness of a value: None, the empty string and the empty list
are falsy. -/
def truthyV : Value → Bool
  | .vnone => false
  | .vstr s => !(s == "")
  | .vlist l => !l.isEmpty

/-- Python truthiness of a `dict.get` result (None for an absent key). -/
def truthyO : Option Value → Bool
  | none => false
  | some v => truthyV v

/-- Python `x is None` applied to a `dict.get` result. -/
def isPyNone : Option Value → Bool
  | none => true
  | some .vnone => true
  | some (.vstr _) => false
  | some (.vlist _) => false

/-- Python `s.strip()`: drop whitespace from both ends. -/
def pyTrim (s : String) : String :=
  String.mk (((s.data.dropWhile Char.isWhitespace).reverse.dropWhile
    Char.isWhitespace).reverse)

/-- Join strings with a separator. -/
def intercalateS (sep : String) : List String → String
  | [] => ""
  | h :: t => t.foldl (fun acc x => acc ++ sep ++ x) h

/-- Python `s.replace('\n', '')`: remove every newline character. -/
def removeNewlines (s : String) : String :=
  String.mk (s.data.filter (fun c => !(c == '\n')))

/-- Python `repr` of a list entry (used when a list value reaches a string
formatting position). -/
def reprEntry : Entry → String
  | .estr s => "'" ++ s ++ "'"
  | .epair k v => "\x7b'" ++ k ++ "': '" ++ v ++ "'\x7d"

/-- Python `str`/`format` conversion of a `dict.get` result. -/
def fmtV : Option Value → String
  | none => "None"
  | some .vnone => "None"
  | some (.vstr s) => s
  | some (.vlist l) => "[" ++ intercalateS ", " (l.map reprEntry) ++ "]"

/-- Python `s.strip(' ,')`: drop spaces and commas from both ends. -/
def stripSC (s : String) : String :=
  let p := fun c => c == ' ' || c == ','
  String.mk (((s.data.dropWhile p).reverse.dropWhile p).reverse)

/-- Python `s.split(sep)` for a one-character separator, on char lists. -/
def splitChar (c : Char) : List Char → List (List Char)
  | [] => [[]]
  | a :: rest =>
    let r := splitChar c rest
    if a == c then [] :: r
    else
      match r with
      | h :: t => (a :: h) :: t
      | [] => [[a]]

/-- Python `s.split(sep)` for a one-character separator. -/
def pySplit (s : String) (c : Char) : List String :=
  (splitChar c s.data).map String.mk

/-- Python `c in s` for a one-character needle. -/
def pyContainsC (s : String) (c : Char) : Bool :=
  s.data.contains c

/-- Python `int(s)`: optional surrounding whitespace, optional sign, at
least one decimal digit; `none` models a raised ValueError. -/
def pyInt (s : String) : Option Int :=
  let t := (pyTrim s).data
  let sd : Int × List Char :=
    match t with
    | '-' :: rest => (-1, rest)
    | '+' :: rest => (1, rest)
    | _ => (1, t)
  if !sd.2.isEmpty && sd.2.all Char.isDigit then
    some (sd.1 * ((sd.2.foldl (fun n c => n * 10 + (c.toNat - 48)) 0 : Nat) : Int))
  else
    none

/-- A parsed XML element: tag, optional text, child elements.  (In lxml an
element with no text has `text = None`.) -/
inductive Xml where
  | elem (tag : String) (text : Option String) (children : List Xml)

def Xml.tag : Xml → String
  | .elem t _ _ => t

def Xml.text : Xml → Option String
  | .elem _ t _ => t

def Xml.children : Xml → List Xml
  | .elem _ _ c => c

/-- Body of the inner loop of `parse_article_xml` (freestor.py lines 53-60)
for one child of a top-level element: the child's trimmed text when truthy
and non-blank after stripping, followed by one single-key dict per
grandchild (`x.text.strip()` raises AttributeError when the grandchild has
no text). -/
def childEntries (child : Xml) : Except PyErr (List Entry) := do
  let base : List Entry :=
    match child.text with
    | some t => if t == "" then [] else (if pyTrim t == "" then [] else [.estr (pyTrim t)])
    | none => []
  let gs ← child.children.mapM (fun x =>
    match x.text with
    | some t => Except.ok (Entry.epair x.tag (pyTrim t))
    | none => Except.error PyErr.attributeError)
  return base ++ gs

/-- Value stored for one top-level element by `parse_article_xml`
(freestor.py lines 47-60): trimmed text for a childless element
(AttributeError when the text is absent), otherwise the concatenated child
entries. -/
def elemVal (e : Xml) : Except PyErr Value :=
  if e.children.isEmpty then
    match e.text with
    | none => .error .attributeError
    | some t => .ok (.vstr (pyTrim t))
  else do
    let parts ← e.children.mapM childEntries
    return .vlist parts.flatten

/-- The element loop of `parse_article_xml`, accumulating the result dict. -/
def parseLoop : Md → List Xml → Except PyErr Md
  | md, [] => .ok md
  | md, e :: rest => do
    let v ← elemVal e
    parseLoop (setk md e.tag v) rest

/-- freestor.py `parse_article_xml` (lines 42-61), applied to the list of
top-level child elements of the document root: drop every `pages` element,
then store one dict entry per element tag. -/
def parse_article_xml (rootChildren : List Xml) : Except PyErr Md :=
  parseLoop [] (rootChildren.filter (fun e => !(e.tag == "pages")))

/-- freestor.py lines 68-70: `'jstor-{0}'.format(xml_md.get('id').split('/')[-1])`.
An absent or non-string `id` raises AttributeError (None/list have no
`split`). -/
def identifierValue (idv : Option Value) : Except PyErr String :=
  match idv with
  | some (.vstr s) => .ok ("jstor-" ++ (pySplit s '/').getLastD "")
  | some (.vlist _) => .error .attributeError
  | some .vnone => .error .attributeError
  | none => .error .attributeError

/-- Python `d[k]` on the bibliographic dict: KeyError when absent. -/
def getkOrKeyError (m : Md) (k : String) : Except PyErr Value :=
  match pyget m k with
  | some v => .ok v
  | none => .error .keyError

/-- freestor.py lines 92-103: use the source title when `get('title')` is
not None, otherwise synthesize a placeholder from journaltitle, date and
pagerange; `'-' not in md['pagerange']` raises TypeError when the page
range is None. -/
def titleValue (titleOpt : Option Value) (jt dt pr : Value) : Except PyErr Value :=
  if isPyNone titleOpt then
    match pr with
    | .vnone => .error .typeError
    | .vstr s =>
      if !(pyContainsC s '-') then
        .ok (.vstr ("[untitled] " ++ fmtV (some jt) ++ " (" ++ fmtV (some dt) ++ "), page " ++ s))
      else
        .ok (.vstr ("[untitled] " ++ fmtV (some jt) ++ ", (" ++ fmtV (some dt) ++ "), pages " ++ s))
    | .vlist l =>
      if !(l.contains (.estr "-")) then
        .ok (.vstr ("[untitled] " ++ fmtV (some jt) ++ " (" ++ fmtV (some dt) ++ "), page " ++ fmtV (some (.vlist l))))
      else
        .ok (.vstr ("[untitled] " ++ fmtV (some jt) ++ ", (" ++ fmtV (some dt) ++ "), pages " ++ fmtV (some (.vlist l))))
  else
    .ok (titleOpt.getD .vnone)

/-- Lookup in the flattened author dict (string values). -/
def lookupS (m : List (String × String)) (k : String) : Option String :=
  (m.find? (fun p => p.1 == k)).map (fun p => p.2)

/-- Python `d[k] = v` on a string-valued dict. -/
def setkS (m : List (String × String)) (k : String) (v : String) : List (String × String) :=
  if m.any (fun p => p.1 == k) then
    m.map (fun p => if p.1 == k then (k, v) else p)
  else
    m ++ [(k, v)]

/-- freestor.py line 108: `dict((k,v.encode('utf-8')) for d in authors for (k,v) in d.items())`.
A plain-string element of the authors list has no `.items()` and raises
AttributeError; later pairs override earlier ones. -/
def buildAuthMd (l : List Entry) : Except PyErr (List (String × String)) :=
  l.foldlM (fun acc e =>
    match e with
    | .estr _ => .error .attributeError
    | .epair k v => .ok (setkS acc k v)) []

/-- Python truthiness of an optional string (`auth_md.get(...)`). -/
def truthyOS : Option String → Bool
  | none => false
  | some s => !(s == "")

/-- freestor.py lines 105-120: creator resolution.  When the authors field
is truthy: the `givennames` check is `is not None` and branch (a) then
indexes `auth_md['surname']` unconditionally (KeyError when absent); the
`stringname` and `surname` checks are truthiness; no usable subfield raises
NameError.  When the authors field is falsy or absent the creator is None. -/
def creatorValue (authors : Option Value) : Except PyErr Value :=
  match authors with
  | some v =>
    if truthyV v then
      match v with
      | .vlist l => do
        let am ← buildAuthMd l
        if (lookupS am "givennames").isSome then
          match lookupS am "surname" with
          | some sn =>
            .ok (.vstr (stripSC sn ++ ", " ++ stripSC ((lookupS am "givennames").getD "")))
          | none => .error .keyError
        else if truthyOS (lookupS am "stringname") then
          .ok (.vstr (stripSC ((lookupS am "stringname").getD "")))
        else if truthyOS (lookupS am "surname") then
          .ok (.vstr (stripSC ((lookupS am "surname").getD "")))
        else
          .error .nameError
      | .vstr _ => .error .attributeError
      | .vnone => .error .typeError
    else
      .ok .vnone
  | none => .ok .vnone

/-- freestor.py lines 122-125: first element of a truthy languages value,
stripped; indexing a string takes its first character, and a dict element
has no `.strip()` (AttributeError). -/
def languageValue (langs : Option Value) : Except PyErr (Option String) :=
  match langs with
  | some v =>
    if truthyV v then
      match v with
      | .vstr s => .ok (some (pyTrim (String.mk (s.data.take 1))))
      | .vlist l =>
        match l with
        | .estr s :: _ => .ok (some (pyTrim s))
        | .epair _ _ :: _ => .error .attributeError
        | [] => .error .typeError
      | .vnone => .error .typeError
    else
      .ok none
  | none => .ok none

/-- freestor.py lines 127-139: one namespaced external identifier per
truthy id field. -/
def externalIds (xml : Md) : List Entry :=
  let ids : List (String × Option Value) :=
    [("headid", pyget xml "headid"),
     ("journalid", pyget xml "journalid"),
     ("issueid", pyget xml "issueid"),
     ("articleid", pyget xml "id")]
  (ids.filter (fun p => truthyO p.2)).map
    (fun p => .estr ("urn:jstor-" ++ p.1 ++ ":" ++ fmtV p.2))

/-- freestor.py line 149: `(int(pagerange[0]) - int(pagerange[1])) + 2` on
the reversed page range, with the surrounding `except ValueError` turning
an unparseable endpoint into a stored None (line 152). -/
def imagecountPair (a b : String) : Option Value :=
  match pyInt a, pyInt b with
  | some x, some y => some (.vstr (toString (x - y + 2)))
  | _, _ => some .vnone

/-- freestor.py lines 144-150: the value stored under `imagecount` from the
reversed split of the page range: the constant string for a single page,
otherwise the endpoint difference plus two. -/
def imagecountCore (parts : List String) : Option Value :=
  match parts with
  | [_] => some (.vstr "2")
  | a :: b :: _ => imagecountPair a b
  | [] => some .vnone

/-- freestor.py lines 141-152: imagecount estimate from the page range.
`some .vnone` models `md['imagecount'] = None` (ValueError caught), plain
`none` models the guard being falsy (no key written); a list-valued page
range raises AttributeError (`.split` on a list), which the `except
ValueError` clause does not catch. -/
def imagecountValue (pr : Option Value) : Except PyErr (Option Value) :=
  match pr with
  | some v =>
    if truthyV v then
      match v with
      | .vstr s => .ok (imagecountCore ((pySplit s '-').reverse))
      | .vlist _ => .error .attributeError
      | .vnone => .error .typeError
    else
      .ok none
  | none => .ok none

/-- freestor.py lines 68-90: the initial metadata dict literal of
`make_ia_metadata`, given the already-evaluated identifier suffix and
`journalabbrv` value. -/
def mdBase (xml : Md) (ident : String) (abbrv : Value) : Md :=
  [("identifier", .vstr ident),
   ("mediatype", .vstr "texts"),
   ("publisher", getv xml "journaltitle"),
   ("contributor", .vstr "JSTOR"),
   ("collection", .vlist [.estr ("jstor_" ++ fmtV (some abbrv)),
                          .estr "jstor_ejc",
                          .estr "additional_collections"]),
   ("date", getv xml "pubdate"),
   ("volume", getv xml "volume"),
   ("pagerange", getv xml "pagerange"),
   ("issn", getv xml "issn"),
   ("source", .vstr ("http://www.jstor.org/stable/" ++ fmtV (pyget xml "id"))),
   ("article_type", getv xml "type"),
   ("journaltitle", getv xml "journaltitle"),
   ("journalabbrv", abbrv)]

/-- Lines 92-120: store the title and creator values. -/
def mdStep1 (xml : Md) (ident : String) (abbrv titleV cr : Value) : Md :=
  setk (setk (mdBase xml ident abbrv) "title" titleV) "creator" cr

/-- Lines 122-125: store the language when the languages field was truthy. -/
def mdStep2 (lang : Option String) (md : Md) : Md :=
  match lang with
  | some s => setk md "language" (.vstr s)
  | none => md

/-- Lines 127-139: store the external-identifier list. -/
def mdStep3 (xml : Md) (md : Md) : Md :=
  setk md "external-identifier" (.vlist (externalIds xml))

/-- Lines 141-152: store the imagecount when the pagerange guard was truthy. -/
def mdStep4 (imgc : Option Value) (md : Md) : Md :=
  match imgc with
  | some v => setk md "imagecount" v
  | none => md

/-- Line 156: `md['title'] = unicode(md['title'])`. -/
def mdStep5 (md : Md) : Md :=
  match pyget md "title" with
  | some v => setk md "title" (.vstr (fmtV (some v)))
  | none => md

/-- Line 157: render the description template over the dict built so far,
remove newlines and strip. -/
def mdStep6 (render : Md → String) (md : Md) : Md :=
  setk md "description" (.vstr (pyTrim (removeNewlines (render md))))

/-- The pure dict assembly of `make_ia_metadata` (lines 68-157) once every
fallible sub-expression has produced a value, applied in source order. -/
def mdAssemble (render : Md → String) (xml : Md) (ident : String)
    (abbrv titleV cr : Value) (lang : Option String) (imgc : Option Value) : Md :=
  mdStep6 render (mdStep5 (mdStep4 imgc (mdStep3 xml
    (mdStep2 lang (mdStep1 xml ident abbrv titleV cr)))))

/-- freestor.py lines 68-157: the body of `make_ia_metadata` before the
final pruning.  The fallible sub-expressions run in source evaluation
order (identifier, collection key, title, creator, language, imagecount);
the pure dict updates they feed are collected in `mdAssemble`.  `render`
stands for the external jinja2 description template (out of repository
scope); its output has newlines removed and is stripped, as on line 157. -/
def makeRaw (render : Md → String) (xml : Md) : Except PyErr Md := do
  let ident ← identifierValue (pyget xml "id")
  let abbrv ← getkOrKeyError xml "journalabbrv"
  let titleV ← titleValue (pyget xml "title") (getv xml "journaltitle")
      (getv xml "pubdate") (getv xml "pagerange")
  let cr ← creatorValue (pyget xml "authors")
  let lang ← languageValue (pyget xml "languages")
  let imgc ← imagecountValue (pyget xml "pagerange")
  return mdAssemble render xml ident abbrv titleV cr lang imgc

/-- freestor.py `make_ia_metadata` (lines 64-160): build the metadata dict
and prune every falsy value (line 160).  `fileMd` is the per-article file
metadata argument, which the function body never reads. -/
def make_ia_metadata (render : Md → String) (fileMd : Md) (xml : Md) : Except PyErr Md :=
  let _ := fileMd
  (makeRaw render xml).map (fun md => md.filter (fun p => truthyV p.2))

/-- A flat JSON object with scalar string values, as fetched from and
patched at the remote metadata endpoint. -/
abbrev JsonMap := List (String × String)

/-- Lookup in a flat JSON object. -/
def jlookup (m : JsonMap) (k : String) : Option String :=
  (m.find? (fun p => p.1 == k)).map (fun p => p.2)

/-- freestor.py line 174: `dest = dict((src.items() + metadata.items()))` —
the union of the current metadata with the overlay applied, overlay
winning on common keys. -/
def dictUnion (src ov : JsonMap) : JsonMap :=
  src.filter (fun p => !(ov.any (fun q => q.1 == p.1))) ++ ov

/-- One generic JSON-patch operation (draft 08 shape): op, path, and an
optional value (a `remove` has none). -/
structure PatchOp where
  op : String
  path : String
  value : Option String
deriving DecidableEq, Repr

/-- Key list with duplicates dropped (first occurrence kept). -/
def dedupKeys : List String → List String
  | [] => []
  | k :: rest => k :: (dedupKeys rest).filter (fun k2 => !(k2 == k))

/-- Modelled from the spec: the external `jsonpatch` library's
`make_patch(src, dest).patch` — "a standard JSON-diff-to-patch algorithm" —
restricted to flat string-valued objects: one `remove` per key present
only in `src`, one `replace` per key whose value differs, one `add` per
key present only in `dest`, each at path `/key`. -/
def make_patch (src dest : JsonMap) : List PatchOp :=
  let srcKeys := dedupKeys (src.map Prod.fst)
  let destKeys := dedupKeys (dest.map Prod.fst)
  (srcKeys.filterMap (fun k =>
    match jlookup src k, jlookup dest k with
    | some _, none => some ⟨"remove", "/" ++ k, none⟩
    | some v, some v2 => if v == v2 then none else some ⟨"replace", "/" ++ k, some v2⟩
    | none, _ => none)) ++
  (destKeys.filterMap (fun k =>
    match jlookup src k with
    | none => some ⟨"add", "/" ++ k, jlookup dest k⟩
    | some _ => none))

/-- The flattened draft-02 operation shape sent to the endpoint:
`(op : path, value : value)` standing for the dict with the operation name
as key. -/
structure FlatOp where
  op : String
  path : String
  value : String
deriving DecidableEq, Repr

/-- freestor.py line 176: `(p['op']: p['path'], 'value': p['value'])` for one
generic operation; a missing `value` key raises KeyError. -/
def flattenOp (p : PatchOp) : Except PyErr FlatOp :=
  match p.value with
  | some v => .ok ⟨p.op, p.path, v⟩
  | none => .error .keyError

/-- Result of `modify_ia_metadata`: the literal no-changes string, or the
single patch request that would be issued (its flattened operations and
target). -/
inductive ModifyResult where
  | noChanges (msg : String)
  | patched (ops : List FlatOp) (target : String)
deriving DecidableEq, Repr

/-- freestor.py `modify_ia_metadata` (lines 163-181), with the two network
calls reified: `src` is the body of the read request for `target`, and a
write is represented by the returned `patched` value rather than sent. -/
def modify_ia_metadata (src overlay : JsonMap) (target : String) : Except PyErr ModifyResult := do
  let dest := dictUnion src overlay
  let json_patch := make_patch src dest
  let patch ← json_patch.mapM flattenOp
  if patch = [] then
    return .noChanges "No changes made to metadata."
  else
    return .patched patch target

/-- One discovered article in the orchestrator: its id and whether a
matching bibliographic XML file exists. -/
structure Article where
  articleid : String
  hasXml : Bool
deriving DecidableEq, Repr

/-- Observable event of one iteration of the submission loop. -/
inductive LoopEvent where
  | skippedNoXml (aid : String)
  | submitted (aid : String)
deriving DecidableEq, Repr

/-- freestor.py lines 203-229: the submission loop of `__main__`.
`ints.headD false` tells whether a KeyboardInterrupt is delivered while the
body of that iteration runs (inside the `try`): the `except
KeyboardInterrupt: pass` clause swallows it and the `for` loop continues
with the next article.  Otherwise an article without an XML file is
reported and skipped before submission, and any other article is submitted
to the pool. -/
def main_loop : List Article → List Bool → List LoopEvent
  | [], _ => []
  | a :: rest, ints =>
    let tail := main_loop rest ints.tail
    if ints.headD false then tail
    else if !a.hasXml then .skippedNoXml a.articleid :: tail
    else .submitted a.articleid :: tail

/-- Identifiers of the units actually handed to the worker pool. -/
def submittedIds (arts : List Article) (ints : List Bool) : List String :=
  (main_loop arts ints).filterMap (fun e =>
    match e with
    | .submitted i => some i
    | _ => none)

/-- Status lines printed by one run: the skip lines from the loop, then —
because `ThreadPoolExecutor.__exit__` waits for every submitted unit and
each future's `add_done_callback` fires exactly once — one `Uploaded` line
per submitted unit. -/
def run_main (arts : List Article) (ints : List Bool) : List String :=
  ((main_loop arts ints).filterMap (fun e =>
    match e with
    | .skippedNoXml i => some ("No XML file:\t" ++ i)
    | _ => none)) ++
  (submittedIds arts ints).map (fun i => "Uploaded:\t" ++ i)

/-! ### Helper lemmas on the dict model -/

/-- Number of entries of `m` carrying key `k`. -/
def countKey (m : Md) (k : String) : Nat :=
  (m.filter (fun p => p.1 == k)).length

theorem bind_ok_iff {α β : Type} (e : Except PyErr α) (k : α → Except PyErr β) (b : β) :
    (e >>= k) = .ok b ↔ ∃ a, e = .ok a ∧ k a = .ok b := by
  cases e <;> simp [Bind.bind, Except.bind]

theorem map_ok_iff {α β : Type} (f : α → β) (e : Except PyErr α) (b : β) :
    (e.map f) = .ok b ↔ ∃ a, e = .ok a ∧ f a = b := by
  cases e <;> simp [Except.map]

theorem pyget_cons (p : String × Value) (m : Md) (k : String) :
    pyget (p :: m) k = if p.1 == k then some p.2 else pyget m k := by
  by_cases h : (p.1 == k) = true <;> simp [pyget, List.find?_cons, h]

theorem pyget_append (m1 m2 : Md) (k : String) :
    pyget (m1 ++ m2) k = (pyget m1 k).or (pyget m2 k) := by
  cases h : m1.find? (fun p => p.1 == k) <;>
    simp [pyget, List.find?_append, h, Option.or]

theorem pyget_nil (k : String) : pyget [] k = none := rfl

theorem pyget_map_update (m : Md) (k : String) (v : Value)
    (h : m.any (fun p => p.1 == k) = true) :
    pyget (m.map (fun p => if p.1 == k then (k, v) else p)) k = some v := by
  induction m with
  | nil => simp at h
  | cons p rest ih =>
    by_cases hp : (p.1 == k) = true
    · rw [List.map_cons, if_pos hp, pyget_cons]
      simp
    · have hr : rest.any (fun p => p.1 == k) = true := by
        simp only [List.any_cons, hp, Bool.false_or] at h
        exact h
      rw [List.map_cons, if_neg hp, pyget_cons, if_neg hp]
      exact ih hr

theorem pyget_map_update_other (m : Md) (k k' : String) (v : Value)
    (h : ¬ k' = k) :
    pyget (m.map (fun p => if p.1 == k then (k, v) else p)) k' = pyget m k' := by
  have hk : ((k : String) == k') = false := by
    rw [beq_eq_false_iff_ne]
    exact fun hkk => h hkk.symm
  induction m with
  | nil => rfl
  | cons p rest ih =>
    by_cases hp : (p.1 == k) = true
    · have hpk : p.1 = k := by simpa using hp
      have hpk' : (p.1 == k') = false := by rw [hpk]; exact hk
      rw [List.map_cons, if_pos hp, pyget_cons, pyget_cons]
      simp only [hk, hpk']
      exact ih
    · rw [List.map_cons, if_neg hp, pyget_cons, pyget_cons]
      by_cases hq : (p.1 == k') = true
      · rw [if_pos hq, if_pos hq]
      · rw [if_neg hq, if_neg hq]
        exact ih

theorem pyget_setk_self (m : Md) (k : String) (v : Value) :
    pyget (setk m k v) k = some v := by
  unfold setk
  by_cases h : m.any (fun p => p.1 == k) = true
  · simp only [h, if_true]
    exact pyget_map_update m k v h
  · simp only [h, if_false]
    have ha' : m.any (fun p => p.1 == k) = false := by
      cases hv : m.any (fun p => p.1 == k)
      · rfl
      · exact absurd hv h
    have hn : pyget m k = none := by
      simp only [pyget, Option.map_eq_none', List.find?_eq_none]
      exact List.any_eq_false.mp ha'
    simp [pyget_append, hn, pyget_cons, Option.or, pyget_nil]

theorem pyget_setk_other (m : Md) (k k' : String) (v : Value) (h : ¬ k' = k) :
    pyget (setk m k v) k' = pyget m k' := by
  unfold setk
  by_cases ha : m.any (fun p => p.1 == k) = true
  · simp only [ha, if_true]
    exact pyget_map_update_other m k k' v h
  · simp only [ha, if_false]
    have hk : ((k : String) == k') = false := by
      rw [beq_eq_false_iff_ne]
      exact fun hkk => h hkk.symm
    cases hm : pyget m k' <;>
      simp [pyget_append, hm, pyget_cons, hk, Option.or, pyget_nil]

theorem pyget_filter_of_truthy (m : Md) (k : String) (v : Value)
    (h1 : pyget m k = some v) (h2 : truthyV v = true) :
    pyget (m.filter (fun p => truthyV p.2)) k = some v := by
  induction m with
  | nil => simp [pyget] at h1
  | cons p rest ih =>
    by_cases hp : (p.1 == k) = true
    · rw [pyget_cons, if_pos hp] at h1
      obtain rfl : p.2 = v := by simpa using h1
      simp [List.filter_cons, h2, pyget_cons, hp]
    · rw [pyget_cons, if_neg hp] at h1
      by_cases ht : truthyV p.2 = true <;>
        simp [List.filter_cons, ht, pyget_cons, hp, ih h1]

theorem pyget_filter_of_none (m : Md) (k : String)
    (h : pyget m k = none) :
    pyget (m.filter (fun p => truthyV p.2)) k = none := by
  simp only [pyget, Option.map_eq_none', List.find?_eq_none] at h ⊢
  intro x hx
  exact h x (List.mem_of_mem_filter hx)

theorem pyget_eq_none_of_countKey_zero (m : Md) (k : String)
    (h : countKey m k = 0) : pyget m k = none := by
  simp only [countKey, List.length_eq_zero, List.filter_eq_nil_iff] at h
  simp only [pyget, Option.map_eq_none', List.find?_eq_none]
  exact h

theorem pyget_filter_of_falsy (m : Md) (k : String) (v : Value)
    (h1 : pyget m k = some v) (h2 : truthyV v = false)
    (hu : countKey m k ≤ 1) :
    pyget (m.filter (fun p => truthyV p.2)) k = none := by
  induction m with
  | nil => simp [pyget] at h1
  | cons p rest ih =>
    by_cases hp : (p.1 == k) = true
    · rw [pyget_cons, if_pos hp] at h1
      obtain rfl : p.2 = v := by simpa using h1
      have hzero : countKey rest k = 0 := by
        simp only [countKey, List.filter_cons, hp, if_pos] at hu
        simpa [countKey] using Nat.le_of_succ_le_succ hu
      have hrnone : pyget (rest.filter (fun p => truthyV p.2)) k = none :=
        pyget_filter_of_none rest k (pyget_eq_none_of_countKey_zero rest k hzero)
      simp [List.filter_cons, h2, hrnone]
    · have hu' : countKey rest k ≤ 1 := by
        simpa [countKey, List.filter_cons, hp] using hu
      rw [pyget_cons, if_neg hp] at h1
      by_cases ht : truthyV p.2 = true <;>
        simp [List.filter_cons, ht, pyget_cons, hp, ih h1 hu']

theorem countKey_cons (p : String × Value) (m : Md) (k : String) :
    countKey (p :: m) k = (if p.1 == k then 1 else 0) + countKey m k := by
  by_cases hp : (p.1 == k) = true <;>
    simp [countKey, List.filter_cons, hp, Nat.succ_eq_add_one, Nat.add_comm]

theorem countKey_map_update (m : Md) (k k' : String) (v : Value) :
    countKey (m.map (fun p => if p.1 == k then (k, v) else p)) k' = countKey m k' := by
  induction m with
  | nil => rfl
  | cons p rest ih =>
    by_cases hp : (p.1 == k) = true
    · have hpk : p.1 = k := by simpa using hp
      rw [List.map_cons, if_pos hp, countKey_cons, countKey_cons, ih, hpk]
    · rw [List.map_cons, if_neg hp, countKey_cons, countKey_cons, ih]

theorem countKey_setk_other (m : Md) (k k' : String) (v : Value)
    (h : ¬ k' = k) : countKey (setk m k v) k' = countKey m k' := by
  unfold setk
  have hk : ((k : String) == k') = false := by
    rw [beq_eq_false_iff_ne]
    exact fun hkk => h hkk.symm
  by_cases ha : m.any (fun p => p.1 == k) = true
  · simp only [ha, if_true]
    exact countKey_map_update m k k' v
  · simp only [ha, if_false]
    simp [countKey, List.filter_append, hk]

theorem countKey_setk_le (m : Md) (k k' : String) (v : Value)
    (h : countKey m k' ≤ 1) : countKey (setk m k v) k' ≤ 1 := by
  by_cases hkk : k' = k
  · subst hkk
    unfold setk
    by_cases ha : m.any (fun p => p.1 == k') = true
    · simp only [ha, if_true]
      rw [countKey_map_update]
      exact h
    · simp only [ha, if_false]
      have ha' : m.any (fun p => p.1 == k') = false := by
        cases hv : m.any (fun p => p.1 == k')
        · rfl
        · exact absurd hv ha
      have h0 : countKey m k' = 0 := by
        simp only [countKey, List.length_eq_zero, List.filter_eq_nil_iff]
        exact List.any_eq_false.mp ha'
      simp only [countKey, List.filter_append]
      simp only [countKey] at h0
      simp [h0]
  · rw [countKey_setk_other m k k' v hkk]
    exact h

theorem pyget_mdStep2_other (lang : Option String) (md : Md) (k : String)
    (h : ¬ k = "language") : pyget (mdStep2 lang md) k = pyget md k := by
  cases lang with
  | none => rfl
  | some s => exact pyget_setk_other md "language" k (.vstr s) h

theorem pyget_mdStep3_other (xml : Md) (md : Md) (k : String)
    (h : ¬ k = "external-identifier") : pyget (mdStep3 xml md) k = pyget md k :=
  pyget_setk_other md "external-identifier" k _ h

theorem pyget_mdStep4_other (imgc : Option Value) (md : Md) (k : String)
    (h : ¬ k = "imagecount") : pyget (mdStep4 imgc md) k = pyget md k := by
  cases imgc with
  | none => rfl
  | some v => exact pyget_setk_other md "imagecount" k v h

theorem pyget_mdStep5_other (md : Md) (k : String)
    (h : ¬ k = "title") : pyget (mdStep5 md) k = pyget md k := by
  unfold mdStep5
  cases hv : pyget md "title" with
  | none => rfl
  | some v => exact pyget_setk_other md "title" k _ h

theorem pyget_mdStep6_other (render : Md → String) (md : Md) (k : String)
    (h : ¬ k = "description") : pyget (mdStep6 render md) k = pyget md k :=
  pyget_setk_other md "description" k _ h

theorem countKey_mdStep2_le (lang : Option String) (md : Md) (k : String)
    (h : countKey md k ≤ 1) : countKey (mdStep2 lang md) k ≤ 1 := by
  cases lang with
  | none => exact h
  | some s => exact countKey_setk_le md "language" k (.vstr s) h

theorem countKey_mdStep3_le (xml : Md) (md : Md) (k : String)
    (h : countKey md k ≤ 1) : countKey (mdStep3 xml md) k ≤ 1 :=
  countKey_setk_le md "external-identifier" k _ h

theorem countKey_mdStep4_le (imgc : Option Value) (md : Md) (k : String)
    (h : countKey md k ≤ 1) : countKey (mdStep4 imgc md) k ≤ 1 := by
  cases imgc with
  | none => exact h
  | some v => exact countKey_setk_le md "imagecount" k v h

theorem countKey_mdStep5_le (md : Md) (k : String)
    (h : countKey md k ≤ 1) : countKey (mdStep5 md) k ≤ 1 := by
  unfold mdStep5
  cases hv : pyget md "title" with
  | none => exact h
  | some v => exact countKey_setk_le md "title" k _ h

theorem countKey_mdStep6_le (render : Md → String) (md : Md) (k : String)
    (h : countKey md k ≤ 1) : countKey (mdStep6 render md) k ≤ 1 :=
  countKey_setk_le md "description" k _ h

/-- The title entry after the whole assembly: it is set by `mdStep1`, not
touched by steps 2-4, re-stored as its string form by `mdStep5` (line 156),
and not touched by `mdStep6`. -/
theorem pyget_mdAssemble_title (render : Md → String) (xml : Md) (ident : String)
    (abbrv titleV cr : Value) (lang : Option String) (imgc : Option Value) :
    pyget (mdAssemble render xml ident abbrv titleV cr lang imgc) "title"
      = some (.vstr (fmtV (some titleV))) := by
  have h1 : pyget (mdStep1 xml ident abbrv titleV cr) "title" = some titleV := by
    unfold mdStep1
    rw [pyget_setk_other _ "creator" "title" cr (by decide),
        pyget_setk_self]
  have h4 : pyget (mdStep4 imgc (mdStep3 xml (mdStep2 lang
      (mdStep1 xml ident abbrv titleV cr)))) "title" = some titleV := by
    rw [pyget_mdStep4_other _ _ _ (by decide),
        pyget_mdStep3_other _ _ _ (by decide),
        pyget_mdStep2_other _ _ _ (by decide), h1]
  unfold mdAssemble
  rw [pyget_mdStep6_other _ _ _ (by decide)]
  unfold mdStep5
  rw [h4, pyget_setk_self]

/-- The creator entry after the whole assembly equals the value produced by
the creator step. -/
theorem pyget_mdAssemble_creator (render : Md → String) (xml : Md) (ident : String)
    (abbrv titleV cr : Value) (lang : Option String) (imgc : Option Value) :
    pyget (mdAssemble render xml ident abbrv titleV cr lang imgc) "creator"
      = some cr := by
  unfold mdAssemble
  rw [pyget_mdStep6_other _ _ _ (by decide),
      pyget_mdStep5_other _ _ (by decide),
      pyget_mdStep4_other _ _ _ (by decide),
      pyget_mdStep3_other _ _ _ (by decide),
      pyget_mdStep2_other _ _ _ (by decide)]
  unfold mdStep1
  exact pyget_setk_self _ "creator" cr

/-- The collection entry after the whole assembly: the dict literal's
three-element list, untouched by every later step. -/
theorem pyget_mdAssemble_collection (render : Md → String) (xml : Md) (ident : String)
    (abbrv titleV cr : Value) (lang : Option String) (imgc : Option Value) :
    pyget (mdAssemble render xml ident abbrv titleV cr lang imgc) "collection"
      = some (.vlist [.estr ("jstor_" ++ fmtV (some abbrv)),
                      .estr "jstor_ejc",
                      .estr "additional_collections"]) := by
  unfold mdAssemble
  rw [pyget_mdStep6_other _ _ _ (by decide),
      pyget_mdStep5_other _ _ (by decide),
      pyget_mdStep4_other _ _ _ (by decide),
      pyget_mdStep3_other _ _ _ (by decide),
      pyget_mdStep2_other _ _ _ (by decide)]
  unfold mdStep1
  rw [pyget_setk_other _ "creator" _ cr (by decide),
      pyget_setk_other _ "title" _ titleV (by decide)]
  simp [mdBase, pyget_cons]

/-- The imagecount entry after the whole assembly equals the value stored
by the imagecount step (absent from the dict literal, untouched later). -/
theorem pyget_mdAssemble_imagecount (render : Md → String) (xml : Md) (ident : String)
    (abbrv titleV cr : Value) (lang : Option String) (imgc : Option Value) :
    pyget (mdAssemble render xml ident abbrv titleV cr lang imgc) "imagecount"
      = match imgc with
        | some v => some v
        | none => none := by
  have hbase : pyget (mdStep3 xml (mdStep2 lang (mdStep1 xml ident abbrv titleV cr)))
      "imagecount" = none := by
    rw [pyget_mdStep3_other _ _ _ (by decide),
        pyget_mdStep2_other _ _ _ (by decide)]
    unfold mdStep1
    rw [pyget_setk_other _ "creator" _ cr (by decide),
        pyget_setk_other _ "title" _ titleV (by decide)]
    simp [mdBase, pyget_cons, pyget_nil]
  unfold mdAssemble
  rw [pyget_mdStep6_other _ _ _ (by decide),
      pyget_mdStep5_other _ _ (by decide)]
  cases imgc with
  | none => exact hbase
  | some v => exact pyget_setk_self _ "imagecount" v

/-- Every key occurs at most once in the assembled dict, given it occurs at
most once in the dict literal. -/
theorem countKey_mdAssemble_le (render : Md → String) (xml : Md) (ident : String)
    (abbrv titleV cr : Value) (lang : Option String) (imgc : Option Value) (k : String)
    (h : countKey (mdBase xml ident abbrv) k ≤ 1) :
    countKey (mdAssemble render xml ident abbrv titleV cr lang imgc) k ≤ 1 := by
  unfold mdAssemble mdStep1
  apply countKey_mdStep6_le
  apply countKey_mdStep5_le
  apply countKey_mdStep4_le
  apply countKey_mdStep3_le
  apply countKey_mdStep2_le
  exact countKey_setk_le _ _ _ _ (countKey_setk_le _ _ _ _ h)

theorem append_ne_empty (s t : String) (h : s ≠ "") : s ++ t ≠ "" := by
  intro hc
  apply h
  have hd : s.data ++ t.data = ([] : List Char) := by
    rw [← String.data_append, hc]
  have hs : s.data = [] := (List.append_eq_nil.mp hd).1
  exact String.ext (by rw [hs])

/-- Whether an embedded Python computation raised. -/
def isErr {α : Type} : Except PyErr α → Bool
  | .error _ => true
  | .ok _ => false

/-- Inversion of a successful `makeRaw` run: every fallible sub-expression
produced a value and the result is their assembly. -/
theorem makeRaw_ok_inv (render : Md → String) (xml : Md) (m : Md)
    (h : makeRaw render xml = .ok m) :
    ∃ ident abbrv titleV cr lang imgc,
      identifierValue (pyget xml "id") = .ok ident ∧
      getkOrKeyError xml "journalabbrv" = .ok abbrv ∧
      titleValue (pyget xml "title") (getv xml "journaltitle")
        (getv xml "pubdate") (getv xml "pagerange") = .ok titleV ∧
      creatorValue (pyget xml "authors") = .ok cr ∧
      languageValue (pyget xml "languages") = .ok lang ∧
      imagecountValue (pyget xml "pagerange") = .ok imgc ∧
      m = mdAssemble render xml ident abbrv titleV cr lang imgc := by
  unfold makeRaw at h
  simp only [bind_ok_iff] at h
  obtain ⟨ident, h1, abbrv, h2, titleV, h3, cr, h4, lang, h5, imgc, h6, h7⟩ := h
  simp only [pure, Except.pure, Except.ok.injEq] at h7
  exact ⟨ident, abbrv, titleV, cr, lang, imgc, h1, h2, h3, h4, h5, h6, h7.symm⟩

/-- Inversion of a successful `make_ia_metadata` run: the returned dict is
the pruned assembly. -/
theorem make_ok_inv (render : Md → String) (fm xml md : Md)
    (h : make_ia_metadata render fm xml = .ok md) :
    ∃ m, makeRaw render xml = .ok m ∧ md = m.filter (fun p => truthyV p.2) := by
  unfold make_ia_metadata at h
  rw [map_ok_iff] at h
  obtain ⟨m, hm, hf⟩ := h
  exact ⟨m, hm, hf.symm⟩

theorem makeRaw_err_of_id (render : Md → String) (xml : Md) (e : PyErr)
    (h : identifierValue (pyget xml "id") = .error e) :
    makeRaw render xml = .error e := by
  unfold makeRaw
  rw [h]
  rfl

theorem makeRaw_err_of_abbrv (render : Md → String) (xml : Md) (i : String) (e : PyErr)
    (h1 : identifierValue (pyget xml "id") = .ok i)
    (h2 : getkOrKeyError xml "journalabbrv" = .error e) :
    makeRaw render xml = .error e := by
  unfold makeRaw
  rw [h1]
  show getkOrKeyError xml "journalabbrv" >>= _ = Except.error e
  rw [h2]
  rfl

theorem makeRaw_err_of_title (render : Md → String) (xml : Md) (i : String) (a : Value)
    (e : PyErr)
    (h1 : identifierValue (pyget xml "id") = .ok i)
    (h2 : getkOrKeyError xml "journalabbrv" = .ok a)
    (h3 : titleValue (pyget xml "title") (getv xml "journaltitle")
      (getv xml "pubdate") (getv xml "pagerange") = .error e) :
    makeRaw render xml = .error e := by
  unfold makeRaw
  rw [h1]
  show getkOrKeyError xml "journalabbrv" >>= _ = Except.error e
  rw [h2]
  show titleValue _ _ _ _ >>= _ = Except.error e
  rw [h3]
  rfl

theorem make_err_of_raw (render : Md → String) (fm xml : Md) (e : PyErr)
    (h : makeRaw render xml = .error e) :
    make_ia_metadata render fm xml = .error e := by
  unfold make_ia_metadata
  rw [h]
  rfl

theorem mk_data (s : String) : String.mk s.data = s := by
  cases s
  rfl

theorem splitChar_not_contains (c : Char) (l : List Char)
    (h : l.contains c = false) : splitChar c l = [l] := by
  induction l with
  | nil => rfl
  | cons a rest ih =>
    have hac : (a == c) = false := by
      rw [beq_eq_false_iff_ne]
      intro hc
      subst hc
      simp [List.contains_cons] at h
    have hrc : rest.contains c = false := by
      simp only [List.contains_cons, Bool.or_eq_false_iff] at h
      exact h.2
    unfold splitChar
    rw [if_neg (by simp [hac]), ih hrc]

theorem pySplit_not_contains (s : String) (c : Char)
    (h : pyContainsC s c = false) : pySplit s c = [s] := by
  unfold pySplit
  rw [splitChar_not_contains c s.data h]
  simp [mk_data]

theorem pySplit_pair_ne_empty (s : String) (c : Char) (a b : String)
    (h : pySplit s c = [a, b]) : s ≠ "" := by
  intro hs
  subst hs
  simp [pySplit, splitChar] at h

theorem toDigitsCore_ne_nil (b : Nat) :
    ∀ (fuel n : Nat) (ds : List Char), ds ≠ [] → Nat.toDigitsCore b fuel n ds ≠ [] := by
  intro fuel
  induction fuel with
  | zero =>
    intro n ds h
    simpa [Nat.toDigitsCore] using h
  | succ fuel ih =>
    intro n ds h
    simp only [Nat.toDigitsCore]
    split
    · simp
    · exact ih (n / b) _ (by simp)

theorem toDigits_ne_nil (b n : Nat) : Nat.toDigits b n ≠ [] := by
  unfold Nat.toDigits
  simp only [Nat.toDigitsCore]
  split
  · simp
  · exact toDigitsCore_ne_nil b n (n / b) _ (by simp)

theorem nat_repr_ne_empty (n : Nat) : Nat.repr n ≠ "" := by
  unfold Nat.repr
  intro h
  have hd := congrArg String.data h
  simp only [List.asString] at hd
  exact toDigits_ne_nil 10 n hd

theorem int_toString_ne_empty (i : Int) : toString i ≠ "" := by
  show Int.repr i ≠ ""
  cases i with
  | ofNat m => exact nat_repr_ne_empty m
  | negSucc m => exact append_ne_empty "-" _ (by decide)

theorem mapM_ok_of_all_ok {α β : Type} (f : α → Except PyErr β) (g : α → β)
    (l : List α) (h : ∀ p ∈ l, f p = .ok (g p)) :
    l.mapM f = .ok (l.map g) := by
  induction l with
  | nil => rfl
  | cons a rest ih =>
    rw [List.mapM_cons, h a (List.mem_cons_self a rest),
        ih (fun p hp => h p (List.mem_cons_of_mem a hp))]
    rfl

/-- A successful `d[k]` access means the key is present with that value. -/
theorem getkOrKeyError_ok (m : Md) (k : String) (v : Value)
    (h : getkOrKeyError m k = .ok v) : pyget m k = some v := by
  unfold getkOrKeyError at h
  cases hg : pyget m k with
  | none =>
    rw [hg] at h
    exact Except.noConfusion h
  | some w =>
    rw [hg] at h
    exact congrArg some (Except.ok.inj h)

/-- Non-string `id` values all raise AttributeError in the identifier
derivation. -/
theorem identifierValue_err (ov : Option Value) (h : ∀ s, ¬ ov = some (.vstr s)) :
    identifierValue ov = .error .attributeError := by
  cases ov with
  | none => rfl
  | some v =>
    cases v with
    | vstr s => exact absurd rfl (h s)
    | vnone => rfl
    | vlist l => rfl

/-- When a run succeeds and the title step produced the non-empty string
`T`, the returned dict carries exactly that title. -/
theorem pyget_title_of_ok (render : Md → String) (fm xml md : Md) (T : String)
    (hok : make_ia_metadata render fm xml = .ok md)
    (hT : titleValue (pyget xml "title") (getv xml "journaltitle")
      (getv xml "pubdate") (getv xml "pagerange") = .ok (.vstr T))
    (hne : ¬ T = "") :
    pyget md "title" = some (.vstr T) := by
  obtain ⟨m, hm, hf⟩ := make_ok_inv render fm xml md hok
  obtain ⟨ident, abbrv, titleV, cr, lang, imgc, _, _, h3, _, _, _, hmm⟩ :=
    makeRaw_ok_inv render xml m hm
  have hTv : titleV = .vstr T := by
    have := h3.symm.trans hT
    exact Except.ok.inj this
  subst hTv
  subst hmm
  subst hf
  apply pyget_filter_of_truthy
  · exact pyget_mdAssemble_title render xml ident abbrv (.vstr T) cr lang imgc
  · simp [truthyV, hne]

/-- When a run succeeds and the imagecount step stored a truthy value, the
returned dict carries it. -/
theorem pyget_imagecount_of_ok_truthy (render : Md → String) (fm xml md : Md)
    (v : Value)
    (hok : make_ia_metadata render fm xml = .ok md)
    (hI : imagecountValue (pyget xml "pagerange") = .ok (some v))
    (htr : truthyV v = true) :
    pyget md "imagecount" = some v := by
  obtain ⟨m, hm, hf⟩ := make_ok_inv render fm xml md hok
  obtain ⟨ident, abbrv, titleV, cr, lang, imgc, _, _, _, _, _, h6, hmm⟩ :=
    makeRaw_ok_inv render xml m hm
  have hiv : imgc = some v := by
    have := h6.symm.trans hI
    exact Except.ok.inj this
  subst hiv
  subst hmm
  subst hf
  apply pyget_filter_of_truthy
  · have := pyget_mdAssemble_imagecount render xml ident abbrv titleV cr lang (some v)
    exact this
  · exact htr

/-- When a run succeeds and the imagecount step stored a falsy value (the
caught-ValueError None), the returned dict has no imagecount key. -/
theorem pyget_imagecount_of_ok_falsy (render : Md → String) (fm xml md : Md)
    (v : Value)
    (hok : make_ia_metadata render fm xml = .ok md)
    (hI : imagecountValue (pyget xml "pagerange") = .ok (some v))
    (htr : truthyV v = false) :
    pyget md "imagecount" = none := by
  obtain ⟨m, hm, hf⟩ := make_ok_inv render fm xml md hok
  obtain ⟨ident, abbrv, titleV, cr, lang, imgc, _, _, _, _, _, h6, hmm⟩ :=
    makeRaw_ok_inv render xml m hm
  have hiv : imgc = some v := by
    have := h6.symm.trans hI
    exact Except.ok.inj this
  subst hiv
  subst hmm
  subst hf
  apply pyget_filter_of_falsy _ _ v
  · have := pyget_mdAssemble_imagecount render xml ident abbrv titleV cr lang (some v)
    exact this
  · exact htr
  · apply countKey_mdAssemble_le
    simp [mdBase, countKey]

/-- When a run succeeds, the creator key of the returned dict carries the
value produced by the creator step when that value is truthy, and is
absent when it is falsy (pruning). -/
theorem pyget_creator_of_ok (render : Md → String) (fm xml md : Md) (cv : Value)
    (hok : make_ia_metadata render fm xml = .ok md)
    (hC : creatorValue (pyget xml "authors") = .ok cv) :
    pyget md "creator" = (if truthyV cv then some cv else none) := by
  obtain ⟨m, hm, hf⟩ := make_ok_inv render fm xml md hok
  obtain ⟨ident, abbrv, titleV, cr, lang, imgc, _, _, _, h4, _, _, hmm⟩ :=
    makeRaw_ok_inv render xml m hm
  have hcv : cr = cv := Except.ok.inj (h4.symm.trans hC)
  rw [hcv] at hmm
  subst hmm
  subst hf
  cases htr : truthyV cv with
  | true =>
    rw [if_pos rfl]
    apply pyget_filter_of_truthy
    · exact pyget_mdAssemble_creator render xml ident abbrv titleV cv lang imgc
    · exact htr
  | false =>
    rw [if_neg (by decide)]
    apply pyget_filter_of_falsy _ _ cv
    · exact pyget_mdAssemble_creator render xml ident abbrv titleV cv lang imgc
    · exact htr
    · apply countKey_mdAssemble_le
      simp [mdBase, countKey]

theorem mem_of_mem_dedupKeys (k : String) (l : List String)
    (h : k ∈ dedupKeys l) : k ∈ l := by
  induction l with
  | nil => simpa [dedupKeys] using h
  | cons a rest ih =>
    simp only [dedupKeys, List.mem_cons] at h
    rcases h with h | h
    · exact h ▸ List.mem_cons_self a rest
    · exact List.mem_cons_of_mem a (ih (List.mem_of_mem_filter h))

theorem jlookup_isSome_of_mem_keys (m : JsonMap) (k : String)
    (h : k ∈ m.map Prod.fst) : (jlookup m k).isSome = true := by
  simp only [jlookup, Option.isSome_map']
  rw [List.find?_isSome]
  simp only [List.mem_map] at h
  obtain ⟨p, hp, hk⟩ := h
  exact ⟨p, hp, by simp [hk]⟩

theorem jlookup_dictUnion_isSome (src ov : JsonMap) (k : String)
    (h : (jlookup src k).isSome = true) :
    (jlookup (dictUnion src ov) k).isSome = true := by
  simp only [jlookup, Option.isSome_map'] at h ⊢
  rw [List.find?_isSome] at h ⊢
  obtain ⟨e, he, hk⟩ := h
  by_cases hov : ov.any (fun q => q.1 == k) = true
  · obtain ⟨q, hq, hqk⟩ := List.any_eq_true.mp hov
    exact ⟨q, List.mem_append_right _ hq, hqk⟩
  · have hek : e.1 = k := by simpa using hk
    have hef : e ∈ (dictUnion src ov) := by
      unfold dictUnion
      apply List.mem_append_left
      rw [List.mem_filter]
      refine ⟨he, ?_⟩
      rw [hek]
      cases hv : ov.any (fun q => q.1 == k)
      · rfl
      · exact absurd hv hov
    exact ⟨e, hef, hk⟩

/-- No operation of a patch computed against the union target lacks a
value: the union keeps every key of `src`, so no `remove` is ever
generated. -/
theorem make_patch_value_isSome (src ov : JsonMap) (p : PatchOp)
    (hp : p ∈ make_patch src (dictUnion src ov)) : p.value.isSome = true := by
  unfold make_patch at hp
  rw [List.mem_append] at hp
  rcases hp with hp | hp
  · rw [List.mem_filterMap] at hp
    obtain ⟨k, hk, hfk⟩ := hp
    have hks : (jlookup src k).isSome = true :=
      jlookup_isSome_of_mem_keys src k (mem_of_mem_dedupKeys k _ hk)
    obtain ⟨v, hv⟩ := Option.isSome_iff_exists.mp hks
    have hds : (jlookup (dictUnion src ov) k).isSome = true :=
      jlookup_dictUnion_isSome src ov k hks
    obtain ⟨v2, hv2⟩ := Option.isSome_iff_exists.mp hds
    rw [hv, hv2] at hfk
    by_cases hvv : (v == v2) = true
    · simp [hvv] at hfk
    · have : (if (v == v2) = true then none
          else some (⟨"replace", "/" ++ k, some v2⟩ : PatchOp)) = some p := hfk
      rw [if_neg hvv] at this
      obtain rfl : (⟨"replace", "/" ++ k, some v2⟩ : PatchOp) = p :=
        Option.some.inj this
      rfl
  · rw [List.mem_filterMap] at hp
    obtain ⟨k, hk, hfk⟩ := hp
    have hkd : k ∈ (dictUnion src ov).map Prod.fst :=
      mem_of_mem_dedupKeys k _ hk
    have hds : (jlookup (dictUnion src ov) k).isSome = true :=
      jlookup_isSome_of_mem_keys _ k hkd
    cases hsrc : jlookup src k with
    | none =>
      rw [hsrc] at hfk
      obtain rfl : (⟨"add", "/" ++ k, jlookup (dictUnion src ov) k⟩ : PatchOp)
          = p := Option.some.inj hfk
      exact hds
    | some w =>
      rw [hsrc] at hfk
      cases hfk

theorem untitled_single_ne (jt dt pr : String) :
    ¬ ("[untitled] " ++ jt ++ " (" ++ dt ++ "), page " ++ pr) = "" :=
  append_ne_empty _ _ (append_ne_empty _ _ (append_ne_empty _ _
    (append_ne_empty _ _ (append_ne_empty _ _ (by decide)))))

theorem untitled_range_ne (jt dt pr : String) :
    ¬ ("[untitled] " ++ jt ++ ", (" ++ dt ++ "), pages " ++ pr) = "" :=
  append_ne_empty _ _ (append_ne_empty _ _ (append_ne_empty _ _
    (append_ne_empty _ _ (append_ne_empty _ _ (by decide)))))

/-! ### Concrete fixtures shared by witnesses and counterexamples -/

/-- A trivial stand-in for the external description template. -/
def renderNull : Md → String := fun _ => ""

/-- A complete single-page bibliographic record. -/
def xmlSample : Md :=
  [("id", .vstr "10.2307/1"), ("journalabbrv", .vstr "aj"),
   ("journaltitle", .vstr "Acme Journal"), ("pubdate", .vstr "1920"),
   ("pagerange", .vstr "5")]

/-! ### Claim theorems -/

/-- C1: on every input on which `make_ia_metadata` returns a metadata
dict, every key present in the returned dict maps to a truthy value (no
key maps to None, an empty string, or an empty list). -/
theorem C1_pruning_invariant (render : Md → String) (fm xml md : Md)
    (h : make_ia_metadata render fm xml = .ok md) :
    ∀ p ∈ md, truthyV p.2 = true := by
  obtain ⟨m, hm, hf⟩ := make_ok_inv render fm xml md h
  subst hf
  intro p hp
  exact (List.mem_filter.mp hp).2

/-- Witness for C1 at a concrete successful run. -/
theorem C1_pruning_invariant_witness :
    truthyV (Value.vstr "jstor-1") = true :=
  C1_pruning_invariant renderNull [] xmlSample
    ((make_ia_metadata renderNull [] xmlSample).toOption.getD [])
    (by decide) ("identifier", Value.vstr "jstor-1") (by decide)

/-- C5: a missing `id` field makes `make_ia_metadata` raise
AttributeError; a missing `journalabbrv` field makes it raise; and every
returned dict's collection list has exactly the three entries: the
per-journal collection `jstor_` followed by the string form of the
record's own `journalabbrv` value, plus the two fixed collections. -/
theorem C5_required_fields (render : Md → String) (fm xml md : Md) :
    (pyget xml "id" = none →
      make_ia_metadata render fm xml = .error .attributeError) ∧
    (pyget xml "journalabbrv" = none →
      isErr (make_ia_metadata render fm xml) = true) ∧
    (make_ia_metadata render fm xml = .ok md →
      ∃ av, pyget xml "journalabbrv" = some av ∧
        pyget md "collection"
          = some (.vlist [.estr ("jstor_" ++ fmtV (some av)), .estr "jstor_ejc",
                          .estr "additional_collections"])) := by
  refine ⟨fun hid => ?_, fun hab => ?_, fun hok => ?_⟩
  · apply make_err_of_raw
    apply makeRaw_err_of_id
    rw [hid]
    rfl
  · cases hid : pyget xml "id" with
    | none =>
      have hidv : identifierValue (pyget xml "id") = .error .attributeError := by
        rw [hid]
        rfl
      rw [make_err_of_raw render fm xml .attributeError
        (makeRaw_err_of_id render xml .attributeError hidv)]
      rfl
    | some v =>
      cases v with
      | vnone =>
        have hidv : identifierValue (pyget xml "id") = .error .attributeError := by
          rw [hid]
          rfl
        rw [make_err_of_raw render fm xml .attributeError
          (makeRaw_err_of_id render xml .attributeError hidv)]
        rfl
      | vlist l =>
        have hidv : identifierValue (pyget xml "id") = .error .attributeError := by
          rw [hid]
          rfl
        rw [make_err_of_raw render fm xml .attributeError
          (makeRaw_err_of_id render xml .attributeError hidv)]
        rfl
      | vstr s =>
        have h1 : identifierValue (pyget xml "id")
            = .ok ("jstor-" ++ (pySplit s '/').getLastD "") := by
          rw [hid]
          rfl
        have h2 : getkOrKeyError xml "journalabbrv" = .error .keyError := by
          unfold getkOrKeyError
          rw [hab]
        rw [make_err_of_raw render fm xml .keyError
          (makeRaw_err_of_abbrv render xml _ .keyError h1 h2)]
        rfl
  · obtain ⟨m, hm, hf⟩ := make_ok_inv render fm xml md hok
    obtain ⟨ident, abbrv, titleV, cr, lang, imgc, _, h2, _, _, _, _, hmm⟩ :=
      makeRaw_ok_inv render xml m hm
    subst hmm
    subst hf
    refine ⟨abbrv, getkOrKeyError_ok xml "journalabbrv" abbrv h2, ?_⟩
    apply pyget_filter_of_truthy
    · exact pyget_mdAssemble_collection render xml ident abbrv titleV cr lang imgc
    · rfl

/-- Witness for C5, exercising the collection conjunct: the per-journal
collection of the sample record (journalabbrv "aj") is `jstor_aj`. -/
theorem C5_required_fields_witness :
    pyget ((make_ia_metadata renderNull [] xmlSample).toOption.getD [])
      "collection"
      = some (.vlist [.estr "jstor_aj", .estr "jstor_ejc",
                      .estr "additional_collections"]) := by
  obtain ⟨av, hav, hcol⟩ := (C5_required_fields renderNull [] xmlSample
    ((make_ia_metadata renderNull [] xmlSample).toOption.getD [])).2.2
    (by decide)
  have hj : pyget xmlSample "journalabbrv" = some (Value.vstr "aj") := by decide
  have hv : av = Value.vstr "aj" := (Option.some.inj (hj.symm.trans hav)).symm
  rw [hv] at hcol
  exact hcol

/-- C10: when both the title and the pagerange fields are absent (Python
None), `make_ia_metadata` raises and returns no metadata dict: the
placeholder-title branch evaluates `'-' not in md['pagerange']` on None. -/
theorem C10_missing_title_and_pagerange (render : Md → String) (fm xml : Md)
    (h1 : isPyNone (pyget xml "title") = true)
    (h2 : isPyNone (pyget xml "pagerange") = true) :
    isErr (make_ia_metadata render fm xml) = true := by
  cases hid : pyget xml "id" with
  | none =>
    have hidv : identifierValue (pyget xml "id") = .error .attributeError := by
      rw [hid]
      rfl
    rw [make_err_of_raw render fm xml .attributeError
      (makeRaw_err_of_id render xml .attributeError hidv)]
    rfl
  | some v =>
    cases v with
    | vnone =>
      have hidv : identifierValue (pyget xml "id") = .error .attributeError := by
        rw [hid]
        rfl
      rw [make_err_of_raw render fm xml .attributeError
        (makeRaw_err_of_id render xml .attributeError hidv)]
      rfl
    | vlist l =>
      have hidv : identifierValue (pyget xml "id") = .error .attributeError := by
        rw [hid]
        rfl
      rw [make_err_of_raw render fm xml .attributeError
        (makeRaw_err_of_id render xml .attributeError hidv)]
      rfl
    | vstr s =>
      have hidok : identifierValue (pyget xml "id")
          = .ok ("jstor-" ++ (pySplit s '/').getLastD "") := by
        rw [hid]
        rfl
      have hprv : getv xml "pagerange" = .vnone := by
        unfold getv
        cases hpr : pyget xml "pagerange" with
        | none => rfl
        | some w =>
          cases w with
          | vnone => rfl
          | vstr t => rw [hpr] at h2; simp [isPyNone] at h2
          | vlist t => rw [hpr] at h2; simp [isPyNone] at h2
      have ht : titleValue (pyget xml "title") (getv xml "journaltitle")
          (getv xml "pubdate") (getv xml "pagerange") = .error .typeError := by
        unfold titleValue
        rw [if_pos h1, hprv]
      cases hab : pyget xml "journalabbrv" with
      | none =>
        have h2' : getkOrKeyError xml "journalabbrv" = .error .keyError := by
          unfold getkOrKeyError
          rw [hab]
        rw [make_err_of_raw render fm xml _
          (makeRaw_err_of_abbrv render xml _ _ hidok h2')]
        rfl
      | some av =>
        have h2' : getkOrKeyError xml "journalabbrv" = .ok av := by
          unfold getkOrKeyError
          rw [hab]
        rw [make_err_of_raw render fm xml _
          (makeRaw_err_of_title render xml _ av _ hidok h2' ht)]
        rfl

/-- Witness for C10 at a record carrying only `id` and `journalabbrv`. -/
theorem C10_missing_title_and_pagerange_witness :
    isErr (make_ia_metadata renderNull []
      [("id", .vstr "x/1"), ("journalabbrv", .vstr "a")]) = true :=
  C10_missing_title_and_pagerange renderNull []
    [("id", .vstr "x/1"), ("journalabbrv", .vstr "a")] (by decide) (by decide)

/-- C2: when the title field is None, the returned title is synthesized
from journaltitle, date and pagerange, with the template chosen by whether
the page range contains a dash (single page: "(date), page N"; range:
", (date), pages N-M"); when a (non-empty, string) source title is present
it is returned unchanged. -/
theorem C2_title_synthesis (render : Md → String) (fm xml md : Md)
    (jt dt pr t : String) :
    (isPyNone (pyget xml "title") = true →
      pyget xml "journaltitle" = some (.vstr jt) →
      pyget xml "pubdate" = some (.vstr dt) →
      pyget xml "pagerange" = some (.vstr pr) →
      make_ia_metadata render fm xml = .ok md →
      pyget md "title" = some (.vstr
        (if pyContainsC pr '-'
         then "[untitled] " ++ jt ++ ", (" ++ dt ++ "), pages " ++ pr
         else "[untitled] " ++ jt ++ " (" ++ dt ++ "), page " ++ pr))) ∧
    (pyget xml "title" = some (.vstr t) → ¬ t = "" →
      make_ia_metadata render fm xml = .ok md →
      pyget md "title" = some (.vstr t)) := by
  constructor
  · intro ht hjt hdt hpr hok
    have hjt' : getv xml "journaltitle" = .vstr jt := by
      unfold getv
      rw [hjt]
      rfl
    have hdt' : getv xml "pubdate" = .vstr dt := by
      unfold getv
      rw [hdt]
      rfl
    have hpr' : getv xml "pagerange" = .vstr pr := by
      unfold getv
      rw [hpr]
      rfl
    have hT : titleValue (pyget xml "title") (getv xml "journaltitle")
        (getv xml "pubdate") (getv xml "pagerange")
        = .ok (.vstr (if pyContainsC pr '-'
          then "[untitled] " ++ jt ++ ", (" ++ dt ++ "), pages " ++ pr
          else "[untitled] " ++ jt ++ " (" ++ dt ++ "), page " ++ pr)) := by
      rw [hjt', hdt', hpr']
      unfold titleValue
      rw [if_pos ht]
      show (if !(pyContainsC pr '-')
          then (Except.ok (Value.vstr
            ("[untitled] " ++ jt ++ " (" ++ dt ++ "), page " ++ pr)) : Except PyErr Value)
          else .ok (.vstr ("[untitled] " ++ jt ++ ", (" ++ dt ++ "), pages " ++ pr)))
        = _
      cases hc : pyContainsC pr '-' <;> simp [hc]
    apply pyget_title_of_ok render fm xml md _ hok hT
    cases hc : pyContainsC pr '-' <;>
      simp [hc, untitled_single_ne, untitled_range_ne]
  · intro hti htne hok
    have hT : titleValue (pyget xml "title") (getv xml "journaltitle")
        (getv xml "pubdate") (getv xml "pagerange") = .ok (.vstr t) := by
      rw [hti]
      rfl
    exact pyget_title_of_ok render fm xml md t hok hT htne

/-- Witness for C2, exercising the single-page template on the spec's own
example values (journaltitle "Acme Journal", date "1920", pagerange "5"). -/
theorem C2_title_synthesis_witness :
    pyget ((make_ia_metadata renderNull [] xmlSample).toOption.getD []) "title"
      = some (.vstr "[untitled] Acme Journal (1920), page 5") :=
  (C2_title_synthesis renderNull [] xmlSample
    ((make_ia_metadata renderNull [] xmlSample).toOption.getD [])
    "Acme Journal" "1920" "5" "").1
    (by decide) (by decide) (by decide) (by decide) (by decide)

/-- C4: a non-empty single-page range (no dash) stores imagecount "2"; a
two-part range with integer endpoints a-b stores the string of
(b - a) + 2; a two-part range with an unparseable endpoint raises nothing
and the returned dict has no imagecount key. -/
theorem C4_imagecount (render : Md → String) (fm xml md : Md)
    (s a b : String) (x y : Int) :
    (pyget xml "pagerange" = some (.vstr s) → ¬ s = "" →
      pyContainsC s '-' = false →
      make_ia_metadata render fm xml = .ok md →
      pyget md "imagecount" = some (.vstr "2")) ∧
    (pyget xml "pagerange" = some (.vstr s) → pySplit s '-' = [a, b] →
      pyInt a = some x → pyInt b = some y →
      make_ia_metadata render fm xml = .ok md →
      pyget md "imagecount" = some (.vstr (toString (y - x + 2)))) ∧
    (pyget xml "pagerange" = some (.vstr s) → pySplit s '-' = [a, b] →
      (pyInt a = none ∨ pyInt b = none) →
      imagecountValue (pyget xml "pagerange") = .ok (some .vnone) ∧
      (make_ia_metadata render fm xml = .ok md →
        pyget md "imagecount" = none)) := by
  refine ⟨fun hpr hs hnc hok => ?_, fun hpr hsp hpa hpb hok => ?_,
    fun hpr hsp hno => ?_⟩
  · have htr : truthyV (.vstr s) = true := by
      simp [truthyV, hs]
    have hI : imagecountValue (pyget xml "pagerange") = .ok (some (.vstr "2")) := by
      rw [hpr]
      show (if truthyV (Value.vstr s) = true
          then (Except.ok (imagecountCore ((pySplit s '-').reverse)) :
            Except PyErr (Option Value))
          else .ok none) = _
      have hrev : (pySplit s '-').reverse = [s] := by
        rw [pySplit_not_contains s '-' hnc]
        rfl
      rw [if_pos htr, hrev]
      rfl
    exact pyget_imagecount_of_ok_truthy render fm xml md _ hok hI rfl
  · have hs : ¬ s = "" := pySplit_pair_ne_empty s '-' a b hsp
    have htr : truthyV (.vstr s) = true := by
      simp [truthyV, hs]
    have hrev : (pySplit s '-').reverse = [b, a] := by
      rw [hsp]
      rfl
    have hpair : imagecountPair b a = some (.vstr (toString (y - x + 2))) := by
      unfold imagecountPair
      rw [hpb, hpa]
    have hI : imagecountValue (pyget xml "pagerange")
        = .ok (some (.vstr (toString (y - x + 2)))) := by
      rw [hpr]
      show (if truthyV (Value.vstr s) = true
          then (Except.ok (imagecountCore ((pySplit s '-').reverse)) :
            Except PyErr (Option Value))
          else .ok none) = _
      rw [if_pos htr, hrev]
      show Except.ok (imagecountPair b a) = _
      rw [hpair]
    apply pyget_imagecount_of_ok_truthy render fm xml md _ hok hI
    have hne := int_toString_ne_empty (y - x + 2)
    simp [truthyV, hne]
  · have hs : ¬ s = "" := pySplit_pair_ne_empty s '-' a b hsp
    have htr : truthyV (.vstr s) = true := by
      simp [truthyV, hs]
    have hrev : (pySplit s '-').reverse = [b, a] := by
      rw [hsp]
      rfl
    have hpair : imagecountPair b a = some .vnone := by
      unfold imagecountPair
      cases hb : pyInt b with
      | none => rfl
      | some yv =>
        cases ha : pyInt a with
        | none => rfl
        | some xv =>
          exfalso
          rcases hno with h | h
          · rw [ha] at h
            cases h
          · rw [hb] at h
            cases h
    have hI : imagecountValue (pyget xml "pagerange") = .ok (some .vnone) := by
      rw [hpr]
      show (if truthyV (Value.vstr s) = true
          then (Except.ok (imagecountCore ((pySplit s '-').reverse)) :
            Except PyErr (Option Value))
          else .ok none) = _
      rw [if_pos htr, hrev]
      show Except.ok (imagecountPair b a) = _
      rw [hpair]
    exact ⟨hI, fun hok => pyget_imagecount_of_ok_falsy render fm xml md _ hok hI rfl⟩

/-- C3 counterexample: an authors entry with `givennames` and `stringname`
but no `surname`.  The claim's priority order says branch (a) does not
apply (surname missing) and the creator should be the trimmed stringname
"John Doe"; the code instead takes branch (a) on `givennames` alone,
indexes the missing `auth_md['surname']`, and raises KeyError, so
`make_ia_metadata` returns no metadata at all. -/
theorem C3_creator_counterexample :
    make_ia_metadata renderNull []
      [("id", .vstr "10.2307/9"), ("journalabbrv", .vstr "aj"),
       ("title", .vstr "T"),
       ("authors", .vlist [.epair "givennames" "John",
                           .epair "stringname" "John Doe"])]
      = .error .keyError := by
  decide

/-- C3 amended: creator resolution as the code implements it.  (a) when
`givennames` is present, the creator is "Surname, GivenNames" with spaces
and commas stripped from each part — and a missing `surname` is then a
hard KeyError rather than a fallthrough; (b) otherwise a non-empty
`stringname` is used, trimmed; (c) otherwise a non-empty `surname` is
used, trimmed; (d) an authors entry with none of the three subfields
raises NameError; (e) with no authors field the returned dict has no
creator key; (f) whatever value the creator step produces is what the
returned dict carries (pruned when falsy). -/
theorem C3_creator_resolution (render : Md → String) (fm xml md : Md) :
    (∀ s g, creatorValue (some (.vlist [.epair "surname" s, .epair "givennames" g]))
        = .ok (.vstr (stripSC s ++ ", " ++ stripSC g))) ∧
    (∀ g, creatorValue (some (.vlist [.epair "givennames" g]))
        = .error .keyError) ∧
    (∀ s, ¬ s = "" → creatorValue (some (.vlist [.epair "stringname" s]))
        = .ok (.vstr (stripSC s))) ∧
    (∀ s, ¬ s = "" → creatorValue (some (.vlist [.epair "surname" s]))
        = .ok (.vstr (stripSC s))) ∧
    (∀ k v, ¬ k = "givennames" → ¬ k = "stringname" → ¬ k = "surname" →
      creatorValue (some (.vlist [.epair k v])) = .error .nameError) ∧
    (pyget xml "authors" = none → make_ia_metadata render fm xml = .ok md →
      pyget md "creator" = none) ∧
    (∀ cv, creatorValue (pyget xml "authors") = .ok cv →
      make_ia_metadata render fm xml = .ok md →
      pyget md "creator" = (if truthyV cv then some cv else none)) := by
  refine ⟨fun s g => rfl, fun g => rfl, fun s hs => ?_, fun s hs => ?_,
    fun k v h1 h2 h3 => ?_, fun ha hok => ?_, fun cv hC hok => ?_⟩
  · simp [creatorValue, buildAuthMd, setkS, lookupS, truthyOS, hs,
      truthyV, Bind.bind, Except.bind, pure, Except.pure]
  · simp [creatorValue, buildAuthMd, setkS, lookupS, truthyOS, hs,
      truthyV, Bind.bind, Except.bind, pure, Except.pure]
  · have b1 : (k == "givennames") = false := beq_eq_false_iff_ne.mpr h1
    have b2 : (k == "stringname") = false := beq_eq_false_iff_ne.mpr h2
    have b3 : (k == "surname") = false := beq_eq_false_iff_ne.mpr h3
    simp [creatorValue, buildAuthMd, setkS, lookupS, truthyOS, b1, b2, b3,
      truthyV, Bind.bind, Except.bind, pure, Except.pure]
  · have hC : creatorValue (pyget xml "authors") = .ok .vnone := by
      rw [ha]
      rfl
    have := pyget_creator_of_ok render fm xml md .vnone hok hC
    simpa using this
  · exact pyget_creator_of_ok render fm xml md cv hok hC

/-- Witness for C3's amended theorem, exercising the trimmed-stringname
conjunct at a concrete non-empty name. -/
theorem C3_creator_resolution_witness :
    creatorValue (some (.vlist [.epair "stringname" " John Doe, "]))
      = .ok (.vstr "John Doe") :=
  (C3_creator_resolution renderNull [] [] []).2.2.1 " John Doe, " (by decide)

/-- Witness for C4, exercising the integer-range conjunct on the spec's own
example "5-9" (which must yield "6"). -/
theorem C4_imagecount_witness :
    pyget ((make_ia_metadata renderNull []
        (setk xmlSample "pagerange" (.vstr "5-9"))).toOption.getD [])
      "imagecount" = some (.vstr (toString ((9 : Int) - 5 + 2))) :=
  (C4_imagecount renderNull [] (setk xmlSample "pagerange" (.vstr "5-9"))
    ((make_ia_metadata renderNull []
      (setk xmlSample "pagerange" (.vstr "5-9"))).toOption.getD [])
    "5-9" "5" "9" 5 9).2.1
    (by decide) (by decide) (by decide) (by decide) (by decide)

/-- C6: `modify_ia_metadata` diffs the current remote metadata against the
union of current-with-overlay-applied; an empty computed patch yields the
literal no-changes string and no write request; overlaying an identical
scalar yields that outcome, and overlaying one differing scalar yields a
single replace operation on that key's path carrying the new value. -/
theorem C6_reconciler (src ov : JsonMap) (x y tgt : String) :
    (make_patch src (dictUnion src ov) = [] →
      modify_ia_metadata src ov tgt
        = .ok (.noChanges "No changes made to metadata.")) ∧
    (modify_ia_metadata [("title", x)] [("title", x)] tgt
      = .ok (.noChanges "No changes made to metadata.")) ∧
    (¬ x = y →
      modify_ia_metadata [("title", x)] [("title", y)] tgt
        = .ok (.patched [⟨"replace", "/title", y⟩] tgt)) := by
  refine ⟨fun h => ?_, ?_, fun hxy => ?_⟩
  · simp [modify_ia_metadata, h, List.mapM.loop, Bind.bind, Except.bind,
      pure, Except.pure]
  · simp [modify_ia_metadata, make_patch, dictUnion, dedupKeys, jlookup,
      List.mapM.loop, List.filterMap, Bind.bind, Except.bind, pure,
      Except.pure]
  · simp [modify_ia_metadata, make_patch, dictUnion, dedupKeys, jlookup,
      flattenOp, hxy, List.mapM.loop, List.filterMap, Bind.bind,
      Except.bind, pure, Except.pure]

/-- Witness for C6, exercising the one-field replace conjunct on the
spec's own example (overlaying title "Y" onto remote title "X"). -/
theorem C6_reconciler_witness :
    modify_ia_metadata [("title", "X")] [("title", "Y")] "metadata"
      = .ok (.patched [⟨"replace", "/title", "Y"⟩] "metadata") :=
  (C6_reconciler [] [] "X" "Y" "metadata").2.2 (by decide)

/-- C7: every operation of a computed patch carries a value and is
flattened from the generic shape (op, path, value) to the draft-02 shape
(op : path, value : value); the whole flattened list is what a non-empty
patch sends in the single patch request. -/
theorem C7_patch_flattening (src ov : JsonMap) (tgt : String) :
    (∀ p ∈ make_patch src (dictUnion src ov),
      flattenOp p = .ok ⟨p.op, p.path, p.value.getD ""⟩) ∧
    ((make_patch src (dictUnion src ov)).mapM flattenOp
      = .ok ((make_patch src (dictUnion src ov)).map
          (fun p => ⟨p.op, p.path, p.value.getD ""⟩))) ∧
    (¬ (make_patch src (dictUnion src ov)).map
          (fun p => (⟨p.op, p.path, p.value.getD ""⟩ : FlatOp)) = [] →
      modify_ia_metadata src ov tgt
        = .ok (.patched ((make_patch src (dictUnion src ov)).map
            (fun p => ⟨p.op, p.path, p.value.getD ""⟩)) tgt)) := by
  have hall : ∀ p ∈ make_patch src (dictUnion src ov),
      flattenOp p = .ok ⟨p.op, p.path, p.value.getD ""⟩ := by
    intro p hp
    have hv := make_patch_value_isSome src ov p hp
    obtain ⟨v, hveq⟩ := Option.isSome_iff_exists.mp hv
    unfold flattenOp
    rw [hveq]
    rfl
  have hmapM := mapM_ok_of_all_ok flattenOp
    (fun p => (⟨p.op, p.path, p.value.getD ""⟩ : FlatOp))
    (make_patch src (dictUnion src ov)) hall
  refine ⟨hall, hmapM, fun hne => ?_⟩
  unfold modify_ia_metadata
  show (make_patch src (dictUnion src ov)).mapM flattenOp >>= _ = _
  rw [hmapM]
  show (if _ = ([] : List FlatOp) then _ else _) = _
  rw [if_neg hne]
  rfl

theorem skip_ne_upload (x i : String) :
    ¬ ("No XML file:\t" ++ x = "Uploaded:\t" ++ i) := by
  intro h
  have hd := congrArg String.data h
  rw [String.data_append, String.data_append] at hd
  have hd2 : 'N' :: ("o XML file:\t".data ++ x.data)
      = 'U' :: ("ploaded:\t".data ++ i.data) := hd
  have := (List.cons.inj hd2).1
  exact absurd this (by decide)

theorem upload_line_injective :
    Function.Injective (fun i => "Uploaded:\t" ++ i) := by
  intro a b h
  have hd : ("Uploaded:\t" ++ a).data = ("Uploaded:\t" ++ b).data :=
    congrArg String.data h
  rw [String.data_append, String.data_append] at hd
  exact String.ext (List.append_cancel_left hd)

/-- The dict-building loop of the parser, on elements with pairwise
distinct tags none of which is already a key of the accumulator, appends
exactly one entry per element in order. -/
theorem parseLoop_eq_mapM (elems : List Xml) (md : Md)
    (hnd : (elems.map Xml.tag).Nodup)
    (hdisj : ∀ e ∈ elems, md.any (fun p => p.1 == e.tag) = false) :
    parseLoop md elems
      = (elems.mapM (fun e => (elemVal e).map (fun v => (e.tag, v)))).map
          (fun l => md ++ l) := by
  induction elems generalizing md with
  | nil =>
    rw [List.mapM_nil]
    simp [parseLoop, Except.map, pure, Except.pure]
  | cons e rest ih =>
    have hntag : e.tag ∉ rest.map Xml.tag := by
      rw [List.map_cons, List.nodup_cons] at hnd
      exact hnd.1
    have hnd' : (rest.map Xml.tag).Nodup := by
      rw [List.map_cons, List.nodup_cons] at hnd
      exact hnd.2
    cases hv : elemVal e with
    | error err =>
      rw [List.mapM_cons]
      simp [parseLoop, hv, Bind.bind, Except.bind, Except.map, pure,
        Except.pure]
    | ok v =>
      have hany : md.any (fun p => p.1 == e.tag) = false :=
        hdisj e (List.mem_cons_self e rest)
      have hsetk : setk md e.tag v = md ++ [(e.tag, v)] := by
        unfold setk
        rw [if_neg (by simp [hany])]
      have hdisj' : ∀ e2 ∈ rest,
          (md ++ [(e.tag, v)]).any (fun p => p.1 == e2.tag) = false := by
        intro e2 he2
        rw [List.any_append]
        have h1 := hdisj e2 (List.mem_cons_of_mem e he2)
        have hne : ¬ (e.tag = e2.tag) := by
          intro hc
          exact hntag (hc ▸ List.mem_map_of_mem Xml.tag he2)
        have h2 : ([(e.tag, v)] : Md).any (fun p => p.1 == e2.tag) = false := by
          simp [hne]
        rw [h1, h2]
        rfl
      have hlhs : parseLoop md (e :: rest)
          = parseLoop (md ++ [(e.tag, v)]) rest := by
        show elemVal e >>= _ = _
        rw [hv, ← hsetk]
        rfl
      rw [hlhs, ih _ hnd' hdisj']
      rw [List.mapM_cons]
      cases hrest : rest.mapM (fun e => (elemVal e).map (fun v => (e.tag, v))) with
      | error err =>
        simp [hv, hrest, Bind.bind, Except.bind, Except.map, pure, Except.pure]
      | ok l =>
        simp [hv, hrest, Bind.bind, Except.bind, Except.map, pure, Except.pure]

/-- The dict-building loop keeps every key at most once when the
accumulator does. -/
theorem parseLoop_countKey (elems : List Xml) (md m : Md)
    (h : parseLoop md elems = .ok m)
    (hmd : ∀ k, countKey md k ≤ 1) :
    ∀ k, countKey m k ≤ 1 := by
  induction elems generalizing md with
  | nil =>
    simp only [parseLoop] at h
    obtain rfl : md = m := Except.ok.inj h
    exact hmd
  | cons e rest ih =>
    simp only [parseLoop] at h
    rw [bind_ok_iff] at h
    obtain ⟨v, hv, h2⟩ := h
    exact ih (setk md e.tag v) h2 (fun k => countKey_setk_le md e.tag k v (hmd k))

/-- When the dict-building loop succeeds, every element's value
computation succeeded. -/
theorem parseLoop_all_ok (elems : List Xml) (md m : Md)
    (h : parseLoop md elems = .ok m) :
    ∀ e ∈ elems, ∃ v, elemVal e = .ok v := by
  induction elems generalizing md with
  | nil =>
    intro e he
    cases he
  | cons e rest ih =>
    simp only [parseLoop] at h
    rw [bind_ok_iff] at h
    obtain ⟨v, hv, h2⟩ := h
    intro e2 he2
    rcases List.mem_cons.mp he2 with rfl | hmem
    · exact ⟨v, hv⟩
    · exact ih (setk md e.tag v) h2 e2 hmem

/-- Full characterization of one key after the dict-building loop: its
value comes from the last element carrying that tag (dict assignment, so
a later element with the same tag overwrites an earlier one), and from
the accumulator when no element carries it. -/
theorem parseLoop_pyget (elems : List Xml) (md m : Md) (k : String)
    (h : parseLoop md elems = .ok m) :
    pyget m k
      = match (elems.filter (fun e => e.tag == k)).getLast? with
        | some e => (elemVal e).toOption
        | none => pyget md k := by
  induction elems generalizing md with
  | nil =>
    simp only [parseLoop] at h
    obtain rfl : md = m := Except.ok.inj h
    rfl
  | cons e rest ih =>
    simp only [parseLoop] at h
    rw [bind_ok_iff] at h
    obtain ⟨v, hv, h2⟩ := h
    have IH := ih (setk md e.tag v) h2
    by_cases htag : (e.tag == k) = true
    · rw [List.filter_cons, if_pos htag]
      cases hrf : rest.filter (fun e2 => e2.tag == k) with
      | nil =>
        have hek : e.tag = k := by simpa using htag
        rw [hrf] at IH
        have IH2 : pyget m k = pyget (setk md e.tag v) k := IH
        rw [IH2, hek, pyget_setk_self]
        show some v = (elemVal e).toOption
        rw [hv]
        rfl
      | cons a t =>
        rw [hrf] at IH
        rw [List.getLast?_cons_cons]
        cases hgl : (a :: t).getLast? with
        | some e2 =>
          rw [hgl] at IH
          exact IH
        | none =>
          exact absurd (List.getLast?_eq_none_iff.mp hgl) (by simp)
    · rw [List.filter_cons, if_neg htag]
      cases hrf : rest.filter (fun e2 => e2.tag == k) with
      | nil =>
        have hne2 : ¬ k = e.tag := by
          intro hc
          exact htag (by simp [hc])
        rw [hrf] at IH
        have IH2 : pyget m k = pyget (setk md e.tag v) k := IH
        rw [IH2, pyget_setk_other md e.tag k v hne2]
        rfl
      | cons a t =>
        rw [hrf] at IH
        cases hgl : (a :: t).getLast? with
        | some e2 =>
          rw [hgl] at IH
          exact IH
        | none =>
          exact absurd (List.getLast?_eq_none_iff.mp hgl) (by simp)

/-- C9 counterexample: two top-level elements sharing the tag `a`.  The
claim promises one mapping entry per top-level child element (two
entries); the dict keyed by tag holds a single entry, the later element
having overwritten the earlier one. -/
theorem C9_parse_counterexample :
    parse_article_xml [Xml.elem "a" (some "x") [], Xml.elem "a" (some "y") []]
      = .ok [("a", .vstr "y")] ∧
    ([Xml.elem "a" (some "x") [], Xml.elem "a" (some "y") []].filter
      (fun e => !(e.tag == "pages"))).length = 2 := by
  constructor
  · decide
  · decide

/-- C9 amended, for every XML document: excluding `pages` elements, the
returned mapping has at most one entry per key, and the entry under each
tag is exactly `elemVal` of the last top-level element carrying that tag
(so repeated tags collapse, last element winning), with no entry for a
tag no element carries; `elemVal` is the claimed per-element value: the
trimmed text of a childless element, or for an element with children the
ordered sequence of non-blank trimmed child texts followed per child by
one single-key mapping per grandchild; and a childless element with no
text makes the parser raise rather than return a mapping. -/
theorem C9_parse_per_tag (children : List Xml) (m : Md) :
    (parse_article_xml children = .ok m → ∀ k, countKey m k ≤ 1) ∧
    (parse_article_xml children = .ok m → ∀ k,
      pyget m k
        = match ((children.filter (fun e => !(e.tag == "pages"))).filter
            (fun e => e.tag == k)).getLast? with
          | some e => (elemVal e).toOption
          | none => none) ∧
    (∀ e ∈ children.filter (fun e => !(e.tag == "pages")),
      e.children = [] → e.text = none →
      isErr (parse_article_xml children) = true) := by
  refine ⟨fun h k => ?_, fun h k => ?_, fun e he hch htx => ?_⟩
  · exact parseLoop_countKey (children.filter (fun e => !(e.tag == "pages")))
      [] m h (fun k2 => Nat.zero_le 1) k
  · rw [parseLoop_pyget (children.filter (fun e => !(e.tag == "pages"))) [] m k h]
    cases hg : ((children.filter (fun e => !(e.tag == "pages"))).filter
        (fun e => e.tag == k)).getLast? <;> rfl
  · cases hp : parse_article_xml children with
    | error err => rfl
    | ok mm =>
      exfalso
      obtain ⟨v, hv⟩ := parseLoop_all_ok
        (children.filter (fun e => !(e.tag == "pages"))) [] mm hp e he
      have hev : elemVal e = .error .attributeError := by
        unfold elemVal
        rw [hch, htx]
        rfl
      rw [hev] at hv
      cases hv

/-- A three-element article document with distinct tags, one `pages`
element, and a structured authors element. -/
def xmlDoc9 : List Xml :=
  [Xml.elem "t" (some " hi ") [], Xml.elem "pages" (some "z") [],
   Xml.elem "authors" (some " ")
     [Xml.elem "author" none
       [Xml.elem "surname" (some "Doe") [], Xml.elem "givennames" (some "Jo") []]]]

/-- Witness for C9's amended theorem: the `t` entry of a concrete parsed
document is the trimmed text of the last (here only) `t` element. -/
theorem C9_parse_per_tag_witness :
    pyget ((parse_article_xml xmlDoc9).toOption.getD []) "t"
      = some (.vstr "hi") := by
  have h := (C9_parse_per_tag xmlDoc9
    ((parse_article_xml xmlDoc9).toOption.getD [])).2.1 (by decide) "t"
  rw [h]
  decide

/-- C8 counterexample: two articles, both with XML files, and a
KeyboardInterrupt delivered during the first iteration's body.  The
`except KeyboardInterrupt: pass` inside the loop swallows it, so the
second unit is still submitted — submission of further work does not
stop, contradicting the claim. -/
theorem C8_interrupt_counterexample :
    main_loop [⟨"a1", true⟩, ⟨"a2", true⟩] [true, false]
      = [.submitted "a2"] := by
  decide

/-- C8 amended: a KeyboardInterrupt delivered during one iteration's body
is caught by the per-iteration `except KeyboardInterrupt: pass`: it only
suppresses that iteration's submission and the loop continues exactly as
if started at the next article; units that were submitted run to
completion (the executor's context exit waits) and each is reported
exactly once. -/
theorem C8_interrupt_behavior (a : Article) (arts : List Article)
    (ints : List Bool) (i : String) :
    (main_loop (a :: arts) (true :: ints) = main_loop arts ints) ∧
    ((run_main arts ints).count ("Uploaded:\t" ++ i)
      = (submittedIds arts ints).count i) := by
  constructor
  · rfl
  · unfold run_main
    rw [List.count_append]
    have h1 : ((main_loop arts ints).filterMap (fun e =>
        match e with
        | .skippedNoXml i2 => some ("No XML file:\t" ++ i2)
        | _ => none)).count ("Uploaded:\t" ++ i) = 0 := by
      rw [List.count_eq_zero]
      intro hmem
      rw [List.mem_filterMap] at hmem
      obtain ⟨e, _, he⟩ := hmem
      cases e with
      | skippedNoXml aid =>
        exact skip_ne_upload aid i (Option.some.inj he)
      | submitted aid => cases he
    rw [h1, List.count_map_of_injective _ _ upload_line_injective]
    simp

/-- Witness for C7, flattening a concrete one-replace patch. -/
theorem C7_patch_flattening_witness :
    modify_ia_metadata [("a", "1"), ("b", "2")] [("b", "3"), ("c", "4")] "metadata"
      = .ok (.patched ((make_patch [("a", "1"), ("b", "2")]
          (dictUnion [("a", "1"), ("b", "2")] [("b", "3"), ("c", "4")])).map
            (fun p => ⟨p.op, p.path, p.value.getD ""⟩)) "metadata") :=
  (C7_patch_flattening [("a", "1"), ("b", "2")] [("b", "3"), ("c", "4")]
    "metadata").2.2 (by decide)

end Freestor


